import Mathlib

/-!
# p2: audit-log gRPC store and consul config store

A shallow embedding of `pkg/grpc/auditlogstore/audit_log_store.go` and
`pkg/store/consul/configstore/store.go`.

Conventions of the embedding:

* Go strings and byte slices are `String`; a Go `error` is `Option String`
  (`none` is the nil error, `some msg` carries the message text).
* A call through an interface (the audit log store, the consul KV client, the
  label applicator) is a function of an explicit backend state `σ` that returns
  its Go results together with the next backend state.
* Every embedded operation also returns the list of backend calls it made, in
  program order, so that statements about "which calls were made" are ordinary
  statements about a list.
* A run that ends in a Go runtime panic (nil pointer dereference) is the
  `Outcome.panics` value.
-/

namespace P2

/-- Result of running a Go function body: either it returns a value or the
goroutine panics. -/
inductive Outcome (α : Type) where
  | returns (a : α)
  | panics
  deriving DecidableEq, Repr

/-- What a modelled operation leaves behind: its Go results, the backend state
after it, and the backend calls it made (in program order). -/
structure Run (σ : Type) (κ : Type) (α : Type) where
  result : α
  state : σ
  calls : List κ

/-- Decimal rendering used for the `%d` verb. -/
def fmtInt (n : Nat) : String := toString n

/-! ## Package `time` of the Go standard library, at second precision

The audit log codec calls `Time.Format(time.RFC3339)` and
`time.Parse(time.RFC3339, ·)`.  The model keeps what these two functions look
at: the instant (seconds since the Unix epoch plus nanoseconds) and the zone
offset in effect at that instant.  Years are unbounded integers. -/
namespace time

/-- A value of `time.Time`: `unix` seconds since 1970-01-01T00:00:00Z, `nsec`
nanoseconds within the second, and `offset`, the seconds east of UTC of the
location of the value at this instant. -/
structure Time where
  unix : Int
  nsec : Nat
  offset : Int
  deriving DecidableEq, Repr

/-- A calendar date of the proleptic Gregorian calendar. -/
structure Date where
  year : Int
  month : Int
  day : Int
  deriving DecidableEq, Repr

/-- Leap year rule (`isLeap` of package time). -/
def isLeap (year : Int) : Bool := year % 4 = 0 && (year % 100 ≠ 0 || year % 400 = 0)

/-- Number of days of month `m` in `year` (`daysIn` of package time). -/
def daysIn (m : Int) (year : Int) : Int :=
  if m = 2 then (if isLeap year then 29 else 28)
  else if m = 4 ∨ m = 6 ∨ m = 9 ∨ m = 11 then 30 else 31

/-- Calendar date, in the proleptic Gregorian calendar, of the day `z` days
after 1970-01-01 (what `Time.Date` of package time computes), by decomposition
into 400-year cycles of 146097 days, centuries of 36524 days, 4-year cycles of
1461 days and years of 365 days, counted from 0000-03-01 so that the leap day
ends its cycle. -/
def civilFromDays (z : Int) : Date :=
  let z0 := z + 719468
  let n400 := z0 / 146097
  let r := z0 % 146097
  let n100 := min (r / 36524) 3
  let r1 := r - n100 * 36524
  let n4 := r1 / 1461
  let r2 := r1 % 1461
  let n1 := min (r2 / 365) 3
  let doy := r2 - n1 * 365
  let y := n400 * 400 + n100 * 100 + n4 * 4 + n1
  let mp := (5 * doy + 2) / 153
  let d := doy - (153 * mp + 2) / 5 + 1
  let m := if mp < 10 then mp + 3 else mp - 9
  ⟨if m ≤ 2 then y + 1 else y, m, d⟩

/-- Days from 1970-01-01 to the calendar date `y`-`m`-`d` (the day count behind
`time.Date`). -/
def daysFromCivil (y m d : Int) : Int :=
  let y1 := if m ≤ 2 then y - 1 else y
  let era := y1 / 400
  let yoe := y1 % 400
  let mp := if m > 2 then m - 3 else m + 9
  let doy := (153 * mp + 2) / 5 + d - 1
  let doe := yoe * 365 + yoe / 4 - yoe / 100 + doy
  era * 146097 + doe - 719468

/-- Calendar date of `t` in its own zone (`Time.Date`). -/
def Time.date (t : Time) : Date := civilFromDays ((t.unix + t.offset) / 86400)

/-- The helper `appendInt` of package time: a minus sign for a negative value,
then the decimal digits of the magnitude, zero-padded on the left to `width`
digits. -/
def appendInt (x : Int) (width : Nat) : List Char :=
  let ds := Nat.toDigits 10 x.natAbs
  (if x < 0 then ['-'] else []) ++ List.replicate (width - ds.length) '0' ++ ds

/-- The layout element `Z07:00`: `Z` for offset zero, otherwise sign, hours and
minutes of the offset; the offset is first cut to whole minutes (Go integer
division, rounding toward zero). -/
def formatZone (offset : Int) : List Char :=
  if offset = 0 then ['Z'] else
    let zone := Int.tdiv offset 60
    (if zone < 0 then ['-'] else ['+']) ++ appendInt (zone.natAbs / 60) 2 ++ [':']
      ++ appendInt (zone.natAbs % 60) 2

/-- The call `t.Format(time.RFC3339)`, layout `2006-01-02T15:04:05Z07:00`. -/
def formatRFC3339 (t : Time) : String :=
  let loc := t.unix + t.offset
  let d := civilFromDays (loc / 86400)
  let rem := loc % 86400
  String.mk (appendInt d.year 4 ++ ['-'] ++ appendInt d.month 2 ++ ['-'] ++ appendInt d.day 2
    ++ ['T'] ++ appendInt (rem / 3600) 2 ++ [':'] ++ appendInt (rem % 3600 / 60) 2 ++ [':']
    ++ appendInt (rem % 60) 2 ++ formatZone t.offset)

/-- Value of a decimal digit. -/
def digitVal (c : Char) : Option Nat :=
  if '0' ≤ c ∧ c ≤ '9' then some (c.toNat - 48) else none

/-- Fixed-width decimal field (`getnum` with `fixed = true`, `atoi`): every
character has to be a digit. -/
def atoi (cs : List Char) : Option Nat :=
  cs.foldl (fun acc c => match acc, digitVal c with
    | some a, some d => some (10 * a + d)
    | _, _ => none) (some 0)

/-- Parsing of the layout element `Z07:00`: `Z`, or a sign followed by `hh:mm`
with `hh ≤ 24` and `mm ≤ 60`; the result is the offset in seconds. -/
def parseZone : List Char → Option Int
  | ['Z'] => some 0
  | [sg, a, b, c, d, e] =>
    if c ≠ ':' then none else
    match atoi [a, b], atoi [d, e] with
    | some hr, some mm =>
      if hr > 24 ∨ mm > 60 then none
      else if sg = '+' then some (((hr * 60 + mm) * 60 : Nat) : Int)
      else if sg = '-' then some (-(((hr * 60 + mm) * 60 : Nat) : Int))
      else none
    | _, _ => none
  | _ => none

/-- The call `time.Parse(time.RFC3339, s)` on text of the second-precision
profile `YYYY-MM-DDTHH:MM:SS` followed by `Z` or `±HH:MM`, which is the shape
of every string `formatRFC3339` produces for a four-digit year.  Fields are
range checked as package time does (month, day of month, hour, minute,
second, and the zone fields as in current Go releases).  Text outside this
profile is reported as a parse error; that covers every other output of
`formatRFC3339` (a year of more or fewer than four digits, a minus sign), which
Go rejects as well, and leaves out inputs with fractional seconds, which Go
accepts and the codec never produces.  The result carries the parsed offset
as its zone and no nanoseconds. -/
def parseRFC3339 (s : String) : Except String Time :=
  match s.data with
  | y1 :: y2 :: y3 :: y4 :: c1 :: m1 :: m2 :: c2 :: d1 :: d2 :: c3 :: h1 :: h2 :: c4 :: n1 :: n2
      :: c5 :: s1 :: s2 :: zone =>
    if c1 ≠ '-' ∨ c2 ≠ '-' ∨ c3 ≠ 'T' ∨ c4 ≠ ':' ∨ c5 ≠ ':' then
      .error ("parsing time " ++ s ++ ": cannot parse as RFC3339")
    else
      match atoi [y1, y2, y3, y4], atoi [m1, m2], atoi [d1, d2], atoi [h1, h2], atoi [n1, n2],
          atoi [s1, s2], parseZone zone with
      | some year, some month, some day, some hour, some min, some sec, some off =>
        if month = 0 ∨ 12 < month then .error ("parsing time " ++ s ++ ": month out of range")
        else if 24 ≤ hour then .error ("parsing time " ++ s ++ ": hour out of range")
        else if 60 ≤ min then .error ("parsing time " ++ s ++ ": minute out of range")
        else if 60 ≤ sec then .error ("parsing time " ++ s ++ ": second out of range")
        else if day < 1 ∨ (day : Int) > daysIn month year then
          .error ("parsing time " ++ s ++ ": day out of range")
        else
          .ok ⟨daysFromCivil year month day * 86400 + hour * 3600 + min * 60 + sec - off, 0, off⟩
      | _, _, _, _, _, _, _ => .error ("parsing time " ++ s ++ ": cannot parse as RFC3339")
  | _ => .error ("parsing time " ++ s ++ ": cannot parse as RFC3339")

end time

/-! ## Package `audit` -/
namespace audit

/-- Modelled from the spec: the type `audit.ID`.  Package `audit` is not among
the sources; the spec gives an audit record an identity `ID`, the RPC surface
carries the ids as strings, and `Delete` converts a request string with
`audit.ID(id)`, so the type is a string type. -/
abbrev ID := String

/-- Modelled from the spec: the method `audit.ID.String`.  The wire map of
`List` is keyed by the record ids as strings, so the method is the conversion
back to the underlying string. -/
def ID.String (id : ID) : String := id

/-- Modelled from the spec: the type `audit.EventType`, an enumerated tag that
travels on the wire as a string tag; the source converts a wire string with
`audit.EventType(s)`, so the type is a string type. -/
abbrev EventType := String

/-- Modelled from the spec: the method `audit.EventType.String`, the string
tag of the event type. -/
def EventType.String (e : EventType) : String := e

/-- Modelled from the spec: the type `audit.SchemaVersion`, an integer; the
source converts with `audit.SchemaVersion(int(n))`, so the type is an `int`
type. -/
abbrev SchemaVersion := Int

/-- Modelled from the spec: the method `audit.SchemaVersion.Int`, the integer
value of the schema version. -/
def SchemaVersion.Int (v : SchemaVersion) : Int := v

/-- Modelled from the spec: the struct `audit.AuditLog`, with the record fields
the spec lists and the source reads.  `EventDetails` is a `*json.RawMessage`;
`none` is the nil pointer. -/
structure AuditLog where
  EventType : EventType
  EventDetails : Option String
  Timestamp : time.Time
  SchemaVersion : SchemaVersion
  deriving DecidableEq, Repr

end audit

/-! ## Package `auditlogstore` (`pkg/grpc/auditlogstore/audit_log_store.go`) -/
namespace auditlogstore

/-- The gRPC status codes this package produces (`google.golang.org/grpc/codes`). -/
inductive Code where
  | InvalidArgument
  | Unavailable
  deriving DecidableEq, Repr

/-- Value of `grpc.Errorf(code, format, args...)`: a status code and a message. -/
structure Status where
  code : Code
  message : String
  deriving DecidableEq, Repr

/-- The protobuf message `AuditLog` (the wire record). -/
structure ProtoAuditLog where
  EventType : String
  EventDetails : String
  Timestamp : String
  SchemaVersion : Int
  deriving DecidableEq, Repr

/-- A Go `map[string]*AuditLog`: at most one entry per key. -/
abbrev ProtoMap := List (String × ProtoAuditLog)

/-- The assignment `m[k] = v` on a Go map: replaces the entry of `k` if there
is one, adds an entry otherwise. -/
def ProtoMap.set : ProtoMap → String → ProtoAuditLog → ProtoMap
  | [], k, v => [(k, v)]
  | (k0, v0) :: m, k, v => if k0 = k then (k, v) :: m else (k0, v0) :: ProtoMap.set m k v

/-- The protobuf message `ListResponse`. -/
structure ListResponse where
  AuditLogs : ProtoMap
  deriving DecidableEq, Repr

/-- The protobuf message `DeleteRequest`. -/
structure DeleteRequest where
  AuditLogIds : List String
  deriving DecidableEq, Repr

/-- The generated getter `(*DeleteRequest).GetAuditLogIds`: nil-safe, a nil
request has no ids. -/
def DeleteRequest.GetAuditLogIds : Option DeleteRequest → List String
  | none => []
  | some req => req.AuditLogIds

/-- The protobuf message `DeleteResponse` (no fields). -/
structure DeleteResponse where
  deriving DecidableEq, Repr

/-- A Go `map[audit.ID]audit.AuditLog`, listed in the order in which a `range`
loop visits it (any order: Go leaves it unspecified).  The keys of a map are
pairwise distinct. -/
abbrev Records := List (audit.ID × audit.AuditLog)

/-- Calls that reach the backing store, with the error each one returned. -/
inductive Call where
  /-- The call `auditLogStore.List()`. -/
  | List (err : Option String)
  /-- The call `auditLogStore.Delete(ctx, id)`: stage the deletion of `id` in the
  transaction. -/
  | Delete (id : audit.ID) (err : Option String)
  /-- The call `transaction.MustCommit(ctx, txner)`. -/
  | MustCommit (err : Option String)
  deriving DecidableEq, Repr

/-- The interface `AuditLogStore` over a backend state `σ`. -/
structure AuditLogStore (σ : Type) where
  /-- Method `Delete(ctx, id) error`: stages the deletion of `id` in the transaction
  carried by `ctx`. -/
  Delete : σ → audit.ID → Option String × σ
  /-- Method `List() (map[audit.ID]audit.AuditLog, error)`. -/
  List : σ → Except String Records × σ

/-- Package `transaction` (`pkg/store/consul/transaction`) is not among the
sources; its functions are parameters.  `New` opens a transaction context and
hands back its cancel function, the staged operations are collected in that
context, and `MustCommit` submits them through the `Txner` as one atomic
transaction, returning an error if the commit fails. -/
structure Txner (σ : Type) where
  New : σ → σ
  cancelFunc : σ → σ
  MustCommit : σ → Option String × σ

/-- The struct `store` (the logger takes no part in results). -/
structure store (σ : Type) where
  auditLogStore : AuditLogStore σ
  txner : Txner σ

/-- The function `rawAuditLogToProtoAuditLog`.  The dereference
`*al.EventDetails` panics on a nil pointer.  `int64(int)` keeps the value. -/
def rawAuditLogToProtoAuditLog (al : audit.AuditLog) : Outcome ProtoAuditLog :=
  match al.EventDetails with
  | none => .panics
  | some details =>
    .returns
      { EventType := audit.EventType.String al.EventType
        EventDetails := details
        Timestamp := time.formatRFC3339 al.Timestamp
        SchemaVersion := audit.SchemaVersion.Int al.SchemaVersion }

/-- The function `ProtoAuditLogToRawAuditLog`: on a timestamp that does not
parse it returns the error (next to the zero `audit.AuditLog`).  `int(int64)`
keeps the value on the 64-bit platforms the program is built for. -/
def ProtoAuditLogToRawAuditLog (protoAL : ProtoAuditLog) : Except String audit.AuditLog :=
  let msg := protoAL.EventDetails
  match time.parseRFC3339 protoAL.Timestamp with
  | .error err =>
    .error ("could not parse timestamp \"" ++ protoAL.Timestamp ++ "\" as RFC3339: " ++ err)
  | .ok timestamp =>
    .ok
      { EventType := protoAL.EventType
        EventDetails := some msg
        Timestamp := timestamp
        SchemaVersion := protoAL.SchemaVersion }

/-- The `range` loop of `store.List`: `count` records have been encoded so
far and `ret` is the map built from them. -/
def listLoop : Records → Nat → ProtoMap → Outcome ProtoMap
  | [], _, ret => .returns ret
  | (id, al) :: rest, count, ret =>
    if count > 64 then .returns ret
    else
      match rawAuditLogToProtoAuditLog al with
      | .panics => .panics
      | .returns protoRecord => listLoop rest (count + 1) (ret.set (audit.ID.String id) protoRecord)

/-- The method `store.List`. -/
def store.List {σ : Type} (s : store σ) (st : σ) :
    Outcome (Run σ Call (Option ListResponse × Option Status)) :=
  match s.auditLogStore.List st with
  | (.error err, st1) =>
    .returns ⟨(none, some ⟨.Unavailable, "error listing audit log records: " ++ err⟩), st1,
      [.List (some err)]⟩
  | (.ok records, st1) =>
    match listLoop records 0 [] with
    | .panics => .panics
    | .returns ret => .returns ⟨(some ⟨ret⟩, none), st1, [.List none]⟩

/-- The `range` loop of `store.Delete`: stages the ids one after the other and
stops at the first error. -/
def deleteLoop {σ : Type} (s : store σ) : List String → σ → Run σ Call (Option String)
  | [], st => ⟨none, st, []⟩
  | id :: rest, st =>
    match s.auditLogStore.Delete st id with
    | (some err, st1) => ⟨some err, st1, [.Delete id (some err)]⟩
    | (none, st1) =>
      let r := deleteLoop s rest st1
      ⟨r.result, r.state, .Delete id none :: r.calls⟩

/-- The method `store.Delete`. -/
def store.Delete {σ : Type} (s : store σ) (st : σ) (req : Option DeleteRequest) :
    Run σ Call (Option DeleteResponse × Option Status) :=
  let ids := DeleteRequest.GetAuditLogIds req
  if ids.length = 0 then
    ⟨(none, some ⟨.InvalidArgument, "no audit log IDs were specified for deletion"⟩), st, []⟩
  else if ids.length > 64 then
    ⟨(none, some ⟨.InvalidArgument,
      "no more than 64 audit log records may be deleted at a time, but request was made for "
        ++ fmtInt ids.length⟩), st, []⟩
  else
    let staged := deleteLoop s ids (s.txner.New st)
    match staged.result with
    | some err =>
      ⟨(none, some ⟨.Unavailable,
        "error queueing up audit log deletions in a transaction: " ++ err⟩),
        s.txner.cancelFunc staged.state, staged.calls⟩
    | none =>
      match s.txner.MustCommit staged.state with
      | (some err, st2) =>
        ⟨(none, some ⟨.Unavailable, "error committing audit log deletion transaction: " ++ err⟩),
          s.txner.cancelFunc st2, staged.calls ++ [.MustCommit (some err)]⟩
      | (none, st2) =>
        ⟨(some {}, none), s.txner.cancelFunc st2, staged.calls ++ [.MustCommit none]⟩

end auditlogstore

/-! ## Package `configstore` (`pkg/store/consul/configstore/store.go`) -/
namespace configstore

/-- The declaration `type ID string`. -/
abbrev ID := String

/-- The method `func (id *ID) String() string`. -/
def ID.String (id : ID) : String := id

/-- The declaration `type Version uint64`. -/
abbrev Version := Nat

/-- The method `func (v *Version) uint64() uint64`: the dereference `*v` panics on a nil
pointer (`none`). -/
def Version.uint64 : Option Version → Outcome Nat
  | none => .panics
  | some v => .returns v

/-- The declaration `type Fields struct`.  `Config` is a `map[string]interface{}` with values of
type `Cfg`; `none` is the nil map. -/
structure Fields (Cfg : Type) where
  Config : Option Cfg
  ID : ID
  deriving DecidableEq, Repr

/-- The zero value `Fields{}`. -/
def Fields.zero {Cfg : Type} : Fields Cfg := ⟨none, ""⟩

/-- The fields of `api.KVPair` the store uses. -/
structure KVPair where
  Key : String
  Value : String
  ModifyIndex : Nat
  deriving DecidableEq, Repr

/-- The field of `api.QueryMeta` the store uses. -/
structure QueryMeta where
  LastIndex : Nat
  deriving DecidableEq, Repr

/-- The declaration `type envelope struct`. -/
structure envelope where
  Config : String
  deriving DecidableEq, Repr

/-- Result of a conditional write or delete: `(ok, _, err)`. -/
structure CASResult (σ : Type) where
  ok : Bool
  err : Option String
  state : σ

/-- The interface `ConsulKV` over a backend state `σ` (the methods the store
calls).  A read that returns no error returns the entries at the key and the
query metadata. -/
structure ConsulKV (σ : Type) where
  Get : σ → String → Except String (List KVPair × QueryMeta) × σ
  CAS : σ → KVPair → CASResult σ
  DeleteCAS : σ → KVPair → CASResult σ

/-- A `labels.Labeled`: a labelled id. -/
structure Labeled where
  ID : String
  Labels : List (String × String)
  deriving DecidableEq, Repr

/-- A `klabels.Selector`, represented by its `String()` rendering. -/
structure Selector where
  text : String
  deriving DecidableEq, Repr

/-- The method of `labels.Applicator` that `FindWhereLabeled` calls, with the
label type fixed to `labels.Config`. -/
structure Applicator (σ : Type) where
  GetMatches : σ → Selector → Except String (List Labeled) × σ

/-- The declaration `type ConsulStore struct`. -/
structure ConsulStore (σ : Type) where
  consulKV : ConsulKV σ
  applicator : Applicator σ

/-- The serialisation libraries (`gopkg.in/yaml.v2`, `encoding/json`) at the
types the store uses them at. -/
structure Codec (Cfg : Type) where
  /-- The call `yaml.Marshal(config.Config)`. -/
  yamlMarshal : Option Cfg → Except String String
  /-- The call `yaml.Unmarshal([]byte(env.Config), &parsedConfig)` into a fresh map. -/
  yamlUnmarshal : String → Except String Cfg
  /-- The call `json.Marshal(env)`: bytes and error. -/
  jsonMarshal : envelope → String × Option String
  /-- The call `json.Unmarshal(c.Value, env)`. -/
  jsonUnmarshal : String → Except String envelope

/-- Calls that reach the consul KV client. -/
inductive Call where
  | Get (key : String)
  | CAS (p : KVPair)
  | DeleteCAS (p : KVPair)
  deriving DecidableEq, Repr

/-- The three results of `FetchConfig`. -/
structure FetchResult (Cfg : Type) where
  fields : Fields Cfg
  version : Option Version
  err : Option String
  deriving DecidableEq, Repr

/-- The method `ConsulStore.FetchConfig`.  The test `len(config) != 1` is the
last branch of the match on `config`; the branch for a single entry `c` is the
code after `c := config[0]`. -/
def FetchConfig {σ Cfg : Type} (cs : ConsulStore σ) (lib : Codec Cfg) (st : σ) (id : ID) :
    Run σ Call (FetchResult Cfg) :=
  match cs.consulKV.Get st (ID.String id) with
  | (.error err, st1) =>
    ⟨⟨Fields.zero, none, some ("Unable to read config at " ++ err)⟩, st1, [.Get (ID.String id)]⟩
  | (.ok (config, consulMetadata), st1) =>
    match config with
    | [c] =>
      match lib.jsonUnmarshal c.Value with
      | .error _ => ⟨⟨Fields.zero, none, none⟩, st1, [.Get (ID.String id)]⟩
      | .ok env =>
        match lib.yamlUnmarshal env.Config with
        | .error err =>
          ⟨⟨Fields.zero, none, some ("Config did not unmarshal as YAML! " ++ err)⟩, st1,
            [.Get (ID.String id)]⟩
        | .ok parsedConfig =>
          ⟨⟨⟨some parsedConfig, id⟩, some consulMetadata.LastIndex, none⟩, st1,
            [.Get (ID.String id)]⟩
    | _ =>
      ⟨⟨Fields.zero, none, some ("Unexpected number of configs stored at ID: " ++ id ++ ". Got: "
        ++ fmtInt config.length)⟩, st1, [.Get (ID.String id)]⟩

/-- The method `ConsulStore.PutConfig`.  The error of `json.Marshal` is
overwritten before it is read; `v.uint64()` is evaluated while the `KVPair`
literal is built, before the conditional write. -/
def PutConfig {σ Cfg : Type} (cs : ConsulStore σ) (lib : Codec Cfg) (st : σ)
    (config : Fields Cfg) (v : Option Version) : Outcome (Run σ Call (Option String)) :=
  match lib.yamlMarshal config.Config with
  | .error err => .returns ⟨some err, st, []⟩
  | .ok yamlConfig =>
    let env : envelope := ⟨yamlConfig⟩
    let bs := (lib.jsonMarshal env).1
    match Version.uint64 v with
    | .panics => .panics
    | .returns modifyIndex =>
      let kvPair : KVPair := ⟨ID.String config.ID, bs, modifyIndex⟩
      let r := cs.consulKV.CAS st kvPair
      if !r.ok then .returns ⟨some "CAS Failed! Consider retry", r.state, [.CAS kvPair]⟩
      else
        match r.err with
        | some err => .returns ⟨some ("CAS Failed: " ++ err), r.state, [.CAS kvPair]⟩
        | none => .returns ⟨none, r.state, [.CAS kvPair]⟩

/-- The method `ConsulStore.DeleteConfig`. -/
def DeleteConfig {σ : Type} (cs : ConsulStore σ) (st : σ) (id : ID) (v : Option Version) :
    Outcome (Run σ Call (Option String)) :=
  match Version.uint64 v with
  | .panics => .panics
  | .returns modifyIndex =>
    let kvPair : KVPair := ⟨ID.String id, "", modifyIndex⟩
    let r := cs.consulKV.DeleteCAS st kvPair
    if !r.ok then .returns ⟨some "CAS Delete Failed! Consider retry.", r.state, [.DeleteCAS kvPair]⟩
    else
      match r.err with
      | some err => .returns ⟨some ("CAS Delete Failed: " ++ err), r.state, [.DeleteCAS kvPair]⟩
      | none => .returns ⟨none, r.state, [.DeleteCAS kvPair]⟩

/-- What `FindWhereLabeled` does, step by step: the index lookup with the error
it returned, and each invocation of `FetchConfig` with its three results. -/
inductive Step (Cfg : Type) where
  | GetMatches (sel : Selector) (err : Option String)
  | FetchConfig (id : ID) (r : FetchResult Cfg)
  deriving DecidableEq, Repr

/-- The `range` loop of `FindWhereLabeled`: `fields` holds the records fetched
so far. -/
def fetchLoop {σ Cfg : Type} (cs : ConsulStore σ) (lib : Codec Cfg) :
    List Labeled → σ → List (Fields Cfg) →
      Run σ (Step Cfg) (Option (List (Fields Cfg)) × Option String)
  | [], st, fields => ⟨(some fields, none), st, []⟩
  | l :: rest, st, fields =>
    let r := FetchConfig cs lib st l.ID
    match r.result.err with
    | some err =>
      ⟨(none, some ("Failed fetching config id " ++ l.ID ++ ": " ++ err)), r.state,
        [.FetchConfig l.ID r.result]⟩
    | none =>
      let r2 := fetchLoop cs lib rest r.state (fields ++ [r.result.fields])
      ⟨r2.result, r2.state, .FetchConfig l.ID r.result :: r2.calls⟩

/-- The method `ConsulStore.FindWhereLabeled`. -/
def FindWhereLabeled {σ Cfg : Type} (cs : ConsulStore σ) (lib : Codec Cfg) (st : σ)
    (label : Selector) : Run σ (Step Cfg) (Option (List (Fields Cfg)) × Option String) :=
  match cs.applicator.GetMatches st label with
  | (.error err, st1) =>
    ⟨(none, some ("Could not query labels for " ++ label.text ++ ", error was: " ++ err)), st1,
      [.GetMatches label (some err)]⟩
  | (.ok labeled, st1) =>
    let r := fetchLoop cs lib labeled st1 []
    ⟨r.result, r.state, .GetMatches label none :: r.calls⟩

end configstore

/-! ## Concrete backends and records

Small executable instances of the interfaces, used to evaluate the operations
on concrete inputs. -/
namespace auditlogstore

/-- An in-memory backing store: the ids on record and the ids staged for
deletion in the open transaction. -/
structure MemAudit where
  records : List String
  pending : List String
  deriving DecidableEq, Repr

/-- A store over `MemAudit`: staging fails for an id that is not on record,
commit removes the staged ids. -/
def memStore : store MemAudit where
  auditLogStore :=
    { Delete := fun st id =>
        if id ∈ st.records then (none, { st with pending := st.pending ++ [id] })
        else (some "no such record", st)
      List := fun st => (.ok [], st) }
  txner :=
    { New := fun st => { st with pending := [] }
      cancelFunc := fun st => { st with pending := [] }
      MustCommit := fun st =>
        (none, { records := st.records.filter (fun r => r ∉ st.pending), pending := [] }) }

/-- Tells the commit calls from the others. -/
def Call.isCommit : Call → Bool
  | .MustCommit _ => true
  | _ => false

/-- A store whose backing store lists the given records. -/
def listStore (records : Records) : store Unit where
  auditLogStore :=
    { Delete := fun st _ => (none, st)
      List := fun st => (.ok records, st) }
  txner :=
    { New := fun st => st
      cancelFunc := fun st => st
      MustCommit := fun st => (none, st) }

/-- The wire record of `al`, read off the fields; it is what
`rawAuditLogToProtoAuditLog` returns whenever the event details are present. -/
def wire (al : audit.AuditLog) : ProtoAuditLog :=
  { EventType := audit.EventType.String al.EventType
    EventDetails := al.EventDetails.getD ""
    Timestamp := time.formatRFC3339 al.Timestamp
    SchemaVersion := audit.SchemaVersion.Int al.SchemaVersion }

/-- A record stamped 2023-06-01T12:00:00Z. -/
def sampleLog : audit.AuditLog :=
  { EventType := "rc_retargeting", EventDetails := some "\x7b\x7d",
    Timestamp := ⟨1685620800, 0, 0⟩, SchemaVersion := 1 }

/-- A record without event details (nil `EventDetails`). -/
def bareLog : audit.AuditLog :=
  { EventType := "rc_retargeting", EventDetails := none,
    Timestamp := ⟨1685620800, 0, 0⟩, SchemaVersion := 1 }

/-- A record stamped 10000-01-01T00:00:00Z, the first second of year 10000. -/
def farLog : audit.AuditLog :=
  { EventType := "rc_retargeting", EventDetails := some "\x7b\x7d",
    Timestamp := ⟨253402300800, 0, 0⟩, SchemaVersion := 1 }

/-- A record stamped 1971-06-01T12:00:00Z in a zone 44 minutes 30 seconds west
of UTC (the offset of Africa/Monrovia before 1972). -/
def skewLog : audit.AuditLog :=
  { EventType := "rc_retargeting", EventDetails := some "\x7b\x7d",
    Timestamp := ⟨44625600, 0, -2670⟩, SchemaVersion := 1 }

/-- A record stamped 2023-06-01T12:00:00Z in a zone 100 hours east of UTC. -/
def hugeLog : audit.AuditLog :=
  { EventType := "rc_retargeting", EventDetails := some "\x7b\x7d",
    Timestamp := ⟨1685620800, 0, 360000⟩, SchemaVersion := 1 }

end auditlogstore

namespace configstore

/-- The premise of the optimistic-concurrency property: a backend with a
current version per key whose conditional write is accepted (reported `ok`,
with no error) exactly when the current version of the key equals the supplied
`ModifyIndex`, and whose rejected conditional write leaves the state as it
was. -/
def VersionedCAS {σ : Type} (kv : ConsulKV σ) (version : σ → String → Nat) : Prop :=
  ∀ s p,
    (version s p.Key = p.ModifyIndex → (kv.CAS s p).ok = true ∧ (kv.CAS s p).err = none) ∧
    (version s p.Key ≠ p.ModifyIndex → (kv.CAS s p).ok = false ∧ (kv.CAS s p).state = s)

/-- An in-memory KV backend: the entries `(key, value, version)` and the index
the next write gets. -/
structure MemKV where
  entries : List (String × String × Nat)
  index : Nat
  deriving DecidableEq, Repr

/-- Current version of a key; 0 for a key that does not exist. -/
def MemKV.version (s : MemKV) (key : String) : Nat :=
  match s.entries.lookup key with
  | some (_, v) => v
  | none => 0

/-- The in-memory KV client: `Get` returns the entry at the key if there is
one, `CAS` and `DeleteCAS` apply when the supplied index is the current
version and are rejected otherwise. -/
def memKV : ConsulKV MemKV where
  Get := fun s key =>
    (.ok ((match s.entries.lookup key with
      | some (val, v) => [⟨key, val, v⟩]
      | none => []), ⟨s.index⟩), s)
  CAS := fun s p =>
    if MemKV.version s p.Key = p.ModifyIndex then
      ⟨true, none, ⟨(p.Key, p.Value, s.index + 1) :: s.entries.filter (fun e => e.1 ≠ p.Key),
        s.index + 1⟩⟩
    else ⟨false, none, s⟩
  DeleteCAS := fun s p =>
    if MemKV.version s p.Key = p.ModifyIndex then
      ⟨true, none, ⟨s.entries.filter (fun e => e.1 ≠ p.Key), s.index + 1⟩⟩
    else ⟨false, none, s⟩

/-- A KV client whose every call fails in transport, the way the consul client
reports it: `ok` false together with the error. -/
def downKV : ConsulKV Unit where
  Get := fun s _ => (.error "connection refused", s)
  CAS := fun s _ => ⟨false, some "connection refused", s⟩
  DeleteCAS := fun s _ => ⟨false, some "connection refused", s⟩

/-- A label index that reports the given matches for every selector. -/
def fixedIndex {σ : Type} (labeled : List Labeled) : Applicator σ where
  GetMatches := fun s _ => (.ok labeled, s)

/-- A toy codec over text documents: a configuration is its own text, a
document that starts with `!` neither serialises nor parses, and the envelope
of a document is the document prefixed with `J`. -/
def textCodec : Codec String where
  yamlMarshal := fun c =>
    match c with
    | none => .ok ""
    | some doc =>
      match doc.data with
      | '!' :: _ => .error "yaml: cannot marshal"
      | _ => .ok doc
  yamlUnmarshal := fun s =>
    match s.data with
    | '!' :: _ => .error "yaml: did not find expected node content"
    | _ => .ok s
  jsonMarshal := fun env => ("J" ++ env.Config, none)
  jsonUnmarshal := fun bs =>
    match bs.data with
    | 'J' :: rest => .ok ⟨String.mk rest⟩
    | _ => .error "invalid character looking for beginning of value"

/-- A backend state: key `a` holds a well-formed envelope at version 3, key
`b` holds bytes that are no envelope at version 5. -/
def sampleKV : MemKV := ⟨[("a", "Jx: 1", 3), ("b", "garbage", 5)], 5⟩

end configstore

/-! ## `store.Delete`: batch bounds and the staging loop -/
namespace auditlogstore

theorem deleteLoop_calls {σ : Type} (s : store σ) (ids : List String) (st : σ) :
    ((deleteLoop s ids st).result = none ∧
        (deleteLoop s ids st).calls = ids.map (fun i => Call.Delete i none)) ∨
      (∃ k id err, (deleteLoop s ids st).result = some err ∧ ids[k]? = some id ∧
        (deleteLoop s ids st).calls
          = (ids.take k).map (fun i => Call.Delete i none) ++ [Call.Delete id (some err)]) := by
  induction ids generalizing st with
  | nil => left; simp [deleteLoop]
  | cons id rest ih =>
    rcases h : s.auditLogStore.Delete st id with ⟨e, st1⟩
    cases e with
    | some err =>
      right
      refine ⟨0, id, err, ?_, ?_, ?_⟩ <;> simp [deleteLoop, h]
    | none =>
      rcases ih st1 with ⟨h1, h2⟩ | ⟨k, id', err, h1, h2, h3⟩
      · left
        simp [deleteLoop, h, h1, h2]
      · right
        refine ⟨k + 1, id', err, ?_, ?_, ?_⟩ <;> simp [deleteLoop, h, h1, h2, h3]

theorem deleteLoop_preserves {σ α : Type} (s : store σ) (obs : σ → α)
    (hstage : ∀ x id, obs (s.auditLogStore.Delete x id).2 = obs x) (ids : List String) (st : σ) :
    obs (deleteLoop s ids st).state = obs st := by
  induction ids generalizing st with
  | nil => simp [deleteLoop]
  | cons id rest ih =>
    rcases h : s.auditLogStore.Delete st id with ⟨e, st1⟩
    have h2 := hstage st id
    rw [h] at h2
    cases e with
    | some err => simpa [deleteLoop, h] using h2
    | none => simp [deleteLoop, h, ih, h2]

/-- C1. `store.Delete` answers `InvalidArgument` exactly when the request has
no id or more than 64 ids, and whenever it answers `InvalidArgument` it has
made no call to the backing store (nothing staged, no commit), has left the
backend state as it was, and returns no response. -/
theorem Delete_invalid_argument_iff {σ : Type} (s : store σ) (st : σ)
    (req : Option DeleteRequest) :
    (((store.Delete s st req).result.2.map Status.code = some Code.InvalidArgument) ↔
        ((DeleteRequest.GetAuditLogIds req).length = 0 ∨
          (DeleteRequest.GetAuditLogIds req).length > 64)) ∧
      ((store.Delete s st req).result.2.map Status.code = some Code.InvalidArgument →
        (store.Delete s st req).calls = [] ∧ (store.Delete s st req).state = st ∧
          (store.Delete s st req).result.1 = none) := by
  unfold store.Delete
  by_cases h0 : (DeleteRequest.GetAuditLogIds req).length = 0
  · simp [h0]
  · by_cases h64 : (DeleteRequest.GetAuditLogIds req).length > 64
    · simp [h0, h64]
    · simp only [h0, h64, if_false, or_self, iff_false]
      cases hr : (deleteLoop s (DeleteRequest.GetAuditLogIds req) (s.txner.New st)).result with
      | some err => simp
      | none =>
        rcases hc : s.txner.MustCommit
          (deleteLoop s (DeleteRequest.GetAuditLogIds req) (s.txner.New st)).state with ⟨e, st2⟩
        cases e <;> simp

/-- C2. For a batch of 1 to 64 ids: if staging some id fails, the calls made
are the successful stagings of the ids before it, in request order, followed by
the failed staging and nothing else (nothing after the failing id is staged,
no commit is attempted), the answer is `Unavailable` with no response, and
over a backend where only a commit changes the observable record set the
record set is what it was; a commit is attempted at most once, and when it is
attempted every id of the batch has been staged successfully before it, in
request order; when no staging fails it is attempted exactly once. -/
theorem Delete_staging_failure_never_commits {σ α : Type} (s : store σ) (st : σ)
    (req : Option DeleteRequest) (obs : σ → α)
    (h1 : 1 ≤ (DeleteRequest.GetAuditLogIds req).length)
    (h64 : (DeleteRequest.GetAuditLogIds req).length ≤ 64) :
    (∀ id err, Call.Delete id (some err) ∈ (store.Delete s st req).calls →
        (∃ k, (DeleteRequest.GetAuditLogIds req)[k]? = some id ∧
          (store.Delete s st req).calls
            = ((DeleteRequest.GetAuditLogIds req).take k).map (fun i => Call.Delete i none)
              ++ [Call.Delete id (some err)]) ∧
        (∀ e, Call.MustCommit e ∉ (store.Delete s st req).calls) ∧
        (store.Delete s st req).result.2.map Status.code = some Code.Unavailable ∧
        (store.Delete s st req).result.1 = none ∧
        ((∀ x, obs (s.txner.New x) = obs x) →
          (∀ x i, obs (s.auditLogStore.Delete x i).2 = obs x) →
          (∀ x, obs (s.txner.cancelFunc x) = obs x) →
          obs (store.Delete s st req).state = obs st)) ∧
      (∀ e, Call.MustCommit e ∈ (store.Delete s st req).calls →
        (store.Delete s st req).calls
          = (DeleteRequest.GetAuditLogIds req).map (fun i => Call.Delete i none)
            ++ [Call.MustCommit e]) ∧
      (store.Delete s st req).calls.countP Call.isCommit ≤ 1 ∧
      ((∀ id err, Call.Delete id (some err) ∉ (store.Delete s st req).calls) →
        (store.Delete s st req).calls.countP Call.isCommit = 1) := by
  have h0 : ¬ (DeleteRequest.GetAuditLogIds req).length = 0 := by omega
  have h65 : ¬ (DeleteRequest.GetAuditLogIds req).length > 64 := by omega
  have hcount : ∀ l : List String,
      (l.map (fun i => Call.Delete i none)).countP Call.isCommit = 0 := by
    intro l
    induction l with
    | nil => rfl
    | cons a l ih => simp [List.countP_cons, Call.isCommit]
  unfold store.Delete
  simp only [h0, h65, if_false]
  rcases deleteLoop_calls s (DeleteRequest.GetAuditLogIds req) (s.txner.New st) with
    ⟨hr, hc⟩ | ⟨k, id, err, hr, hk, hc⟩
  · rcases hm : s.txner.MustCommit
      (deleteLoop s (DeleteRequest.GetAuditLogIds req) (s.txner.New st)).state with ⟨e, st2⟩
    cases e <;>
      simp [hr, hc, hm, List.countP_append, hcount, Call.isCommit]
  · have hmap : ∀ (l : List String) (c : Call), c ∈ l.map (fun i => Call.Delete i none) →
        ∃ i, c = Call.Delete i none := by
      intro l c hcm
      obtain ⟨i, _, hi⟩ := List.mem_map.1 hcm
      exact ⟨i, hi.symm⟩
    simp only [hr, hc]
    refine ⟨?_, ?_, ?_, ?_⟩
    · intro id' err' hmem
      have hlast : id' = id ∧ err' = err := by
        rcases List.mem_append.1 hmem with h | h
        · obtain ⟨i, hi⟩ := hmap _ _ h
          cases hi
        · have := List.mem_singleton.1 h
          cases this
          exact ⟨rfl, rfl⟩
      obtain ⟨rfl, rfl⟩ := hlast
      refine ⟨⟨k, hk, rfl⟩, ?_, rfl, trivial, ?_⟩
      · intro e he
        rcases List.mem_append.1 he with h | h
        · obtain ⟨i, hi⟩ := hmap _ _ h
          cases hi
        · have := List.mem_singleton.1 h
          cases this
      · intro hN hD hC
        rw [hC, deleteLoop_preserves s obs hD, hN]
    · intro e he
      rcases List.mem_append.1 he with h | h
      · obtain ⟨i, hi⟩ := hmap _ _ h
        cases hi
      · have := List.mem_singleton.1 h
        cases this
    · rw [List.countP_append, hcount]
      simp [Call.isCommit]
    · intro hno
      exact absurd (List.mem_append.2 (Or.inr (List.mem_singleton.2 rfl))) (hno id err)

/-- Witness for `Delete_staging_failure_never_commits`: a batch of three ids
whose second id is not on record. -/
theorem Delete_staging_failure_never_commits_witness :
    (1 ≤ (DeleteRequest.GetAuditLogIds (some ⟨["a", "x", "b"]⟩)).length ∧
      (DeleteRequest.GetAuditLogIds (some ⟨["a", "x", "b"]⟩)).length ≤ 64) ∧
    (store.Delete memStore ⟨["a", "b"], []⟩ (some ⟨["a", "x", "b"]⟩)).calls
      = [Call.Delete "a" none, Call.Delete "x" (some "no such record")] ∧
    (store.Delete memStore ⟨["a", "b"], []⟩ (some ⟨["a", "x", "b"]⟩)).state.records = ["a", "b"] ∧
    (store.Delete memStore ⟨["a", "b"], []⟩ (some ⟨["a", "x", "b"]⟩)).calls.countP Call.isCommit
      ≤ 1 :=
  ⟨⟨by decide, by decide⟩, by decide, by decide,
    (Delete_staging_failure_never_commits memStore ⟨["a", "b"], []⟩ (some ⟨["a", "x", "b"]⟩)
      MemAudit.records (by decide) (by decide)).2.2.1⟩

end auditlogstore

/-! ## `store.List`: the cap of 65 records -/
namespace auditlogstore

theorem encode_of_details (al : audit.AuditLog) (h : al.EventDetails ≠ none) :
    rawAuditLogToProtoAuditLog al = .returns (wire al) := by
  unfold rawAuditLogToProtoAuditLog wire
  cases hd : al.EventDetails with
  | none => exact absurd hd h
  | some d => simp

theorem set_fresh (m : ProtoMap) (k : String) (v : ProtoAuditLog)
    (h : k ∉ m.map Prod.fst) : ProtoMap.set m k v = m ++ [(k, v)] := by
  induction m with
  | nil => rfl
  | cons e m ih =>
    obtain ⟨k0, v0⟩ := e
    have hk : ¬ k0 = k := by
      intro hk
      exact h (by simp [hk])
    have hm : k ∉ m.map Prod.fst := by
      intro hm
      exact h (by simp [hm])
    simp [ProtoMap.set, hk, ih hm]

theorem listLoop_eq (records : Records) (count : Nat) (ret : ProtoMap)
    (hkeys : (records.map Prod.fst).Nodup)
    (hfresh : ∀ x ∈ records, audit.ID.String x.1 ∉ ret.map Prod.fst)
    (hdetails : ∀ x ∈ records.take (65 - count), x.2.EventDetails ≠ none) :
    listLoop records count ret
      = .returns (ret ++ (records.take (65 - count)).map
          (fun x => (audit.ID.String x.1, wire x.2))) := by
  induction records generalizing count ret with
  | nil => simp [listLoop]
  | cons x rest ih =>
    obtain ⟨id, al⟩ := x
    by_cases hc : count > 64
    · have h0 : 65 - count = 0 := by omega
      simp [listLoop, hc, h0]
    · obtain ⟨n, hn⟩ : ∃ n, 65 - count = n + 1 := ⟨64 - count, by omega⟩
      have hn2 : 65 - (count + 1) = n := by omega
      rw [hn] at hdetails
      have hal : al.EventDetails ≠ none := hdetails (id, al) (by simp)
      have hnd : id ∉ rest.map Prod.fst ∧ (rest.map Prod.fst).Nodup := List.nodup_cons.1 hkeys
      have hid : audit.ID.String id ∉ ret.map Prod.fst := hfresh (id, al) (by simp)
      have hrest := ih (count + 1) (ret.set (audit.ID.String id) (wire al)) hnd.2
        (by
          intro y hy
          rw [set_fresh ret _ _ hid]
          have h1 := hfresh y (by simp [hy])
          have h2 : y.1 ≠ id := by
            intro h
            exact hnd.1 (by rw [← h]; exact List.mem_map_of_mem Prod.fst hy)
          simpa [audit.ID.String, h2] using h1)
        (by
          rw [hn2]
          intro y hy
          exact hdetails y (by simp [hy]))
      rw [listLoop]
      simp only [hc, if_false, encode_of_details al hal]
      rw [hrest, hn, hn2, set_fresh ret _ _ hid]
      simp

/-- C3 (amended). When the backing store lists `n` records successfully and the
records the loop visits (the first 65 in iteration order) carry event details,
`store.List` returns a response with exactly `min n 65` entries (so at most
65), under pairwise distinct keys, and every entry is keyed by the id of a
record of the backing set and carries the wire encoding of that record. -/
theorem List_returns_min_65 {σ : Type} (s : store σ) (st st1 : σ) (records : Records)
    (hlist : s.auditLogStore.List st = (.ok records, st1))
    (hkeys : (records.map Prod.fst).Nodup)
    (hdetails : ∀ x ∈ records.take 65, x.2.EventDetails ≠ none) :
    ∃ resp : ListResponse,
      store.List s st = .returns ⟨(some resp, none), st1, [Call.List none]⟩ ∧
      resp.AuditLogs.length = min records.length 65 ∧
      resp.AuditLogs.length ≤ 65 ∧
      (resp.AuditLogs.map Prod.fst).Nodup ∧
      ∀ e ∈ resp.AuditLogs, ∃ x ∈ records,
        e.1 = audit.ID.String x.1 ∧ rawAuditLogToProtoAuditLog x.2 = .returns e.2 := by
  have hloop := listLoop_eq records 0 [] hkeys (by simp) hdetails
  refine ⟨⟨(records.take 65).map (fun x => (audit.ID.String x.1, wire x.2))⟩, ?_, ?_, ?_, ?_, ?_⟩
  · unfold store.List
    rw [hlist]
    simp only []
    rw [hloop]
    simp
  · simp [Nat.min_comm]
  · simp
  · have hsub : (records.take 65).Sublist records := List.take_sublist 65 records
    have := (hsub.map Prod.fst).nodup hkeys
    simpa [List.map_map, Function.comp_def, audit.ID.String] using this
  · intro e he
    obtain ⟨x, hx, rfl⟩ := List.mem_map.1 he
    exact ⟨x, List.mem_of_mem_take hx, rfl, encode_of_details x.2 (hdetails x hx)⟩

/-- Witness for `List_returns_min_65`: a backing set of 70 records yields 65
entries. -/
theorem List_returns_min_65_witness :
    ((listStore ((List.range 70).map (fun i => (toString i, sampleLog)))).auditLogStore.List ()
        = (.ok ((List.range 70).map (fun i => (toString i, sampleLog))), ())) ∧
    ∃ resp : ListResponse,
      store.List (listStore ((List.range 70).map (fun i => (toString i, sampleLog)))) ()
        = .returns ⟨(some resp, none), (), [Call.List none]⟩ ∧
      resp.AuditLogs.length = 65 :=
  ⟨rfl, by
    obtain ⟨resp, h1, h2, _⟩ := List_returns_min_65
      (listStore ((List.range 70).map (fun i => (toString i, sampleLog)))) () ()
      ((List.range 70).map (fun i => (toString i, sampleLog))) rfl (by decide) (by decide)
    exact ⟨resp, h1, by simpa using h2⟩⟩

/-- C3 (as stated) fails: the backing store lists one record successfully, the
record has no event details, and `store.List` panics instead of returning a
response. -/
theorem List_panics_without_event_details :
    (listStore [("a", bareLog)]).auditLogStore.List () = (.ok [("a", bareLog)], ()) ∧
      store.List (listStore [("a", bareLog)]) () = Outcome.panics :=
  ⟨rfl, rfl⟩

end auditlogstore

/-! ## RFC 3339 text: parsing what `formatRFC3339` prints -/
namespace time

/-! ### Decimal fields -/

theorem toDigitsCore_one (f n : Nat) (ds : List Char) (hf : 0 < f) (h : n < 10) :
    Nat.toDigitsCore 10 f n ds = Nat.digitChar n :: ds := by
  obtain ⟨g, rfl⟩ : ∃ g, f = g + 1 := ⟨f - 1, by omega⟩
  have h1 : n / 10 = 0 := by omega
  have h2 : n % 10 = n := by omega
  simp [Nat.toDigitsCore, h1, h2]

theorem toDigitsCore_step (f n : Nat) (ds : List Char) (hf : 0 < f) (h : 10 ≤ n) :
    Nat.toDigitsCore 10 f n ds
      = Nat.toDigitsCore 10 (f - 1) (n / 10) (Nat.digitChar (n % 10) :: ds) := by
  obtain ⟨g, rfl⟩ : ∃ g, f = g + 1 := ⟨f - 1, by omega⟩
  have h1 : n / 10 ≠ 0 := by omega
  simp [Nat.toDigitsCore, h1]

theorem digitChar_zero : Nat.digitChar 0 = '0' := rfl

theorem appendInt_two (n : Nat) (h : n < 100) :
    appendInt (n : Int) 2 = [Nat.digitChar (n / 10), Nat.digitChar (n % 10)] := by
  have hneg : ¬ ((n : Int) < 0) := by omega
  unfold appendInt Nat.toDigits
  simp only [hneg, if_false, Int.natAbs_ofNat]
  by_cases h10 : n < 10
  · have h1 : n / 10 = 0 := by omega
    have h4 : n % 10 = n := by omega
    rw [toDigitsCore_one _ n [] (by omega) h10]
    simp [h1, h4, digitChar_zero]
  · rw [toDigitsCore_step _ n [] (by omega) (by omega),
      toDigitsCore_one _ (n / 10) _ (by omega) (by omega)]
    simp

theorem appendInt_four (n : Nat) (h : n < 10000) :
    appendInt (n : Int) 4 = [Nat.digitChar (n / 1000), Nat.digitChar (n / 100 % 10),
      Nat.digitChar (n / 10 % 10), Nat.digitChar (n % 10)] := by
  have hneg : ¬ ((n : Int) < 0) := by omega
  unfold appendInt Nat.toDigits
  simp only [hneg, if_false, Int.natAbs_ofNat]
  by_cases h10 : n < 10
  · have h1 : n / 1000 = 0 := by omega
    have h2 : n / 100 % 10 = 0 := by omega
    have h3 : n / 10 % 10 = 0 := by omega
    have h4 : n % 10 = n := by omega
    rw [toDigitsCore_one _ n [] (by omega) h10]
    simp [h1, h2, h3, h4, digitChar_zero]
  · rw [toDigitsCore_step _ n [] (by omega) (by omega)]
    by_cases h100 : n < 100
    · have h1 : n / 1000 = 0 := by omega
      have h2 : n / 100 % 10 = 0 := by omega
      have h3 : n / 10 % 10 = n / 10 := by omega
      rw [toDigitsCore_one _ (n / 10) _ (by omega) (by omega)]
      simp [h1, h2, h3, digitChar_zero]
    · rw [toDigitsCore_step _ (n / 10) _ (by omega) (by omega)]
      by_cases h1000 : n < 1000
      · have h1 : n / 1000 = 0 := by omega
        have h2 : n / 100 % 10 = n / 10 / 10 := by omega
        rw [toDigitsCore_one _ (n / 10 / 10) _ (by omega) (by omega)]
        simp [h1, h2, digitChar_zero]
      · have h1 : n / 1000 = n / 10 / 10 / 10 := by omega
        have h2 : n / 100 % 10 = n / 10 / 10 % 10 := by omega
        rw [toDigitsCore_step _ (n / 10 / 10) _ (by omega) (by omega),
          toDigitsCore_one _ (n / 10 / 10 / 10) _ (by omega) (by omega)]
        simp [h1, h2]

theorem digitVal_digitChar (k : Nat) (h : k < 10) : digitVal (Nat.digitChar k) = some k := by
  interval_cases k <;> decide

theorem atoi_two (a b : Nat) (ha : a < 10) (hb : b < 10) :
    atoi [Nat.digitChar a, Nat.digitChar b] = some (10 * a + b) := by
  simp [atoi, digitVal_digitChar, ha, hb]

theorem atoi_four (a b c d : Nat) (ha : a < 10) (hb : b < 10) (hc : c < 10) (hd : d < 10) :
    atoi [Nat.digitChar a, Nat.digitChar b, Nat.digitChar c, Nat.digitChar d]
      = some (10 * (10 * (10 * a + b) + c) + d) := by
  simp [atoi, digitVal_digitChar, ha, hb, hc, hd]

theorem atoi_two_digits (n : Nat) (h : n < 100) :
    atoi [Nat.digitChar (n / 10), Nat.digitChar (n % 10)] = some n := by
  rw [atoi_two _ _ (by omega) (by omega)]
  congr 1
  omega

theorem atoi_four_digits (n : Nat) (h : n < 10000) :
    atoi [Nat.digitChar (n / 1000), Nat.digitChar (n / 100 % 10), Nat.digitChar (n / 10 % 10),
      Nat.digitChar (n % 10)] = some n := by
  rw [atoi_four _ _ _ _ (by omega) (by omega) (by omega) (by omega)]
  congr 1
  omega

/-! ### Calendar -/

theorem civil_core (z n400 r n100 r1 n4 r2 n1 doy y mp d m yr : Int)
    (e1 : n400 = (z + 719468) / 146097) (e2 : r = (z + 719468) % 146097)
    (e3 : n100 = min (r / 36524) 3) (e4 : r1 = r - n100 * 36524)
    (e5 : n4 = r1 / 1461) (e6 : r2 = r1 % 1461)
    (e7 : n1 = min (r2 / 365) 3) (e8 : doy = r2 - n1 * 365)
    (e9 : y = n400 * 400 + n100 * 100 + n4 * 4 + n1)
    (e10 : mp = (5 * doy + 2) / 153) (e11 : d = doy - (153 * mp + 2) / 5 + 1)
    (e12 : m = if mp < 10 then mp + 3 else mp - 9)
    (e13 : yr = if m ≤ 2 then y + 1 else y) :
    1 ≤ m ∧ m ≤ 12 ∧ 1 ≤ d ∧ d ≤ daysIn m yr ∧ daysFromCivil yr m d = z := by
  have a0 : 0 ≤ r ∧ r < 146097 := by omega
  have a1 : 0 ≤ n100 ∧ n100 ≤ 3 := by omega
  have a2 : 0 ≤ r1 ∧ r1 ≤ 36524 ∧ (n100 < 3 → r1 < 36524) := by omega
  have a3 : 0 ≤ n4 ∧ n4 ≤ 24 := by omega
  have a4 : 0 ≤ r2 ∧ r2 ≤ 1460 ∧ (n4 = 24 → n100 < 3 → r2 < 1460) ∧ r1 = n4 * 1461 + r2 := by
    omega
  have a5 : 0 ≤ n1 ∧ n1 ≤ 3 := by omega
  have a6 : 0 ≤ doy ∧ doy ≤ 365 ∧ (n1 < 3 → doy < 365) := by omega
  have a7 : 0 ≤ mp ∧ mp ≤ 11 := by omega
  have hy400 : y / 400 = n400 ∧ y % 400 = n100 * 100 + n4 * 4 + n1 := by omega
  have hq4 : (n100 * 100 + n4 * 4 + n1) / 4 = n100 * 25 + n4 := by omega
  have hq100 : (n100 * 100 + n4 * 4 + n1) / 100 = n100 := by omega
  have hleap : doy = 365 → (y + 1) % 4 = 0 ∧ ((y + 1) % 100 ≠ 0 ∨ (y + 1) % 400 = 0) := by
    intro hd
    have b1 : n1 = 3 := by omega
    have b2 : r2 = 1460 := by omega
    have b3 : n4 = 24 → n100 = 3 := by omega
    omega
  have hm : 1 ≤ m ∧ m ≤ 12 := by
    rw [e12]; split_ifs <;> omega
  have hd1 : 1 ≤ d := by omega
  have hback : daysFromCivil yr m d = z := by
    have hy1 : (if m ≤ 2 then yr - 1 else yr) = y := by
      rw [e13]; split_ifs <;> omega
    have hmp : (if m > 2 then m - 3 else m + 9) = mp := by
      rw [e12]; split_ifs <;> omega
    unfold daysFromCivil
    simp only [hy1, hmp, hy400.1, hy400.2, hq4, hq100]
    omega
  have hlen : d ≤ daysIn m yr := by
    by_cases h11 : mp = 11
    · have hm2 : m = 2 := by rw [e12]; split_ifs <;> omega
      have hyr : yr = y + 1 := by rw [e13]; split_ifs <;> omega
      have hd28 : doy < 365 → d ≤ 28 := by omega
      have hd29 : d ≤ 29 := by omega
      unfold daysIn isLeap
      simp only [hm2, if_true]
      by_cases hdoy : doy = 365
      · obtain ⟨l1, l2⟩ := hleap hdoy
        have : (decide (yr % 4 = 0) && (decide (yr % 100 ≠ 0) || decide (yr % 400 = 0))) = true := by
          rw [hyr]
          rcases l2 with l2 | l2 <;> simp [l1, l2]
        rw [this]
        simpa using hd29
      · have := hd28 (by omega)
        split_ifs <;> omega
    · have hm3 : m ≠ 2 := by rw [e12]; split_ifs <;> omega
      unfold daysIn
      simp only [hm3, if_false]
      have hmv : m = if mp < 10 then mp + 3 else mp - 9 := e12
      have hmp : mp ≤ 10 := by omega
      obtain ⟨a70, _⟩ := a7
      interval_cases mp <;> simp at hmv <;> subst hmv <;> simp <;> omega
  exact ⟨hm.1, hm.2, hd1, hlen, hback⟩

theorem civil_spec (z : Int) :
    1 ≤ (civilFromDays z).month ∧ (civilFromDays z).month ≤ 12 ∧ 1 ≤ (civilFromDays z).day ∧
      (civilFromDays z).day ≤ daysIn (civilFromDays z).month (civilFromDays z).year ∧
      daysFromCivil (civilFromDays z).year (civilFromDays z).month (civilFromDays z).day = z :=
  civil_core z _ _ _ _ _ _ _ _ _ _ _ _ _ rfl rfl rfl rfl rfl rfl rfl rfl rfl rfl rfl rfl rfl

theorem parseZone_digits (sg : Char) (h m : Nat) (hh : h ≤ 24) (hm : m < 60) :
    parseZone [sg, Nat.digitChar (h / 10), Nat.digitChar (h % 10), ':', Nat.digitChar (m / 10),
      Nat.digitChar (m % 10)]
      = if sg = '+' then some (((h * 60 + m) * 60 : Nat) : Int)
        else if sg = '-' then some (-(((h * 60 + m) * 60 : Nat) : Int)) else none := by
  have h1 : ¬ (h > 24 ∨ m > 60) := by omega
  simp only [parseZone, atoi_two_digits h (by omega), atoi_two_digits m (by omega), h1, if_false,
    ne_eq, not_true_eq_false]

theorem parseZone_formatZone (off : Int) (h60 : off % 60 = 0)
    (hlo : -86400 < off) (hhi : off < 86400) : parseZone (formatZone off) = some off := by
  unfold formatZone
  by_cases h0 : off = 0
  · simp [h0, parseZone]
  · simp only [h0, if_false]
    obtain ⟨k, rfl⟩ : ∃ k, off = 60 * k := ⟨off / 60, by omega⟩
    have hz : Int.tdiv (60 * k) 60 = k := Int.mul_tdiv_cancel_left k (by decide)
    rw [hz]
    obtain ⟨n, hn⟩ : ∃ n : Nat, k.natAbs = n := ⟨_, rfl⟩
    rw [hn]
    have e1 : ((n : Int) / 60) = ((n / 60 : Nat) : Int) := by omega
    have e2 : ((n : Int) % 60) = ((n % 60 : Nat) : Int) := by omega
    rw [e1, e2, appendInt_two _ (by omega), appendInt_two _ (by omega)]
    by_cases hneg : k < 0
    · simp only [hneg, if_true, List.cons_append, List.nil_append]
      rw [parseZone_digits _ _ _ (by omega) (by omega)]
      simp only [show ¬ ('-' = '+') by decide, if_false, if_true]
      congr 1
      omega
    · simp only [hneg, if_false, List.cons_append, List.nil_append]
      rw [parseZone_digits _ _ _ (by omega) (by omega)]
      simp only [if_true]
      congr 1
      omega

theorem daysIn_le (m y : Int) : daysIn m y ≤ 31 := by
  unfold daysIn
  split_ifs <;> omega

theorem parse_digits (Y M D H N S : Nat) (zone : List Char) (off : Int)
    (bY : Y < 10000) (bM1 : 1 ≤ M) (bM : M ≤ 12) (bD1 : 1 ≤ D) (bD : (D : Int) ≤ daysIn M Y)
    (bH : H < 24) (bN : N < 60) (bS : S < 60) (hz : parseZone zone = some off) :
    parseRFC3339 (String.mk (Nat.digitChar (Y / 1000) :: Nat.digitChar (Y / 100 % 10)
      :: Nat.digitChar (Y / 10 % 10) :: Nat.digitChar (Y % 10) :: '-'
      :: Nat.digitChar (M / 10) :: Nat.digitChar (M % 10) :: '-'
      :: Nat.digitChar (D / 10) :: Nat.digitChar (D % 10) :: 'T'
      :: Nat.digitChar (H / 10) :: Nat.digitChar (H % 10) :: ':'
      :: Nat.digitChar (N / 10) :: Nat.digitChar (N % 10) :: ':'
      :: Nat.digitChar (S / 10) :: Nat.digitChar (S % 10) :: zone))
      = .ok ⟨daysFromCivil Y M D * 86400 + H * 3600 + N * 60 + S - off, 0, off⟩ := by
  have hD31 := daysIn_le M Y
  have c1 : ¬ (M = 0 ∨ 12 < M) := by omega
  have c2 : ¬ (24 ≤ H) := by omega
  have c3 : ¬ (60 ≤ N) := by omega
  have c4 : ¬ (60 ≤ S) := by omega
  have c5 : ¬ (D < 1 ∨ (D : Int) > daysIn M Y) := by omega
  unfold parseRFC3339
  simp only [ne_eq, not_true_eq_false, or_self, if_false]
  rw [atoi_four_digits Y bY, atoi_two_digits M (by omega), atoi_two_digits D (by omega),
    atoi_two_digits H (by omega), atoi_two_digits N (by omega), atoi_two_digits S (by omega), hz]
  simp only [c1, c2, c3, c4, c5, if_false]

theorem parse_format (t : Time) (hy0 : 0 ≤ t.date.year) (hy1 : t.date.year ≤ 9999)
    (h60 : t.offset % 60 = 0) (hlo : -86400 < t.offset) (hhi : t.offset < 86400) :
    parseRFC3339 (formatRFC3339 t) = .ok ⟨t.unix, 0, t.offset⟩ := by
  unfold Time.date at hy0 hy1
  obtain ⟨hm1, hm12, hd1, hdmax, hback⟩ := civil_spec ((t.unix + t.offset) / 86400)
  unfold formatRFC3339
  simp only []
  generalize civilFromDays ((t.unix + t.offset) / 86400) = c at *
  obtain ⟨Y, hY⟩ : ∃ Y : Nat, c.year = Y := ⟨c.year.toNat, by omega⟩
  obtain ⟨M, hM⟩ : ∃ M : Nat, c.month = M := ⟨c.month.toNat, by omega⟩
  obtain ⟨D, hD⟩ : ∃ D : Nat, c.day = D := ⟨c.day.toNat, by omega⟩
  obtain ⟨H, hH⟩ : ∃ H : Nat, (t.unix + t.offset) % 86400 / 3600 = H :=
    ⟨((t.unix + t.offset) % 86400 / 3600).toNat, by omega⟩
  obtain ⟨N, hN⟩ : ∃ N : Nat, (t.unix + t.offset) % 86400 % 3600 / 60 = N :=
    ⟨((t.unix + t.offset) % 86400 % 3600 / 60).toNat, by omega⟩
  obtain ⟨S, hS⟩ : ∃ S : Nat, (t.unix + t.offset) % 86400 % 60 = S :=
    ⟨((t.unix + t.offset) % 86400 % 60).toNat, by omega⟩
  rw [hY, hM, hD] at hdmax hback
  have hD31 := daysIn_le M Y
  rw [hY, hM, hD, hH, hN, hS, appendInt_four Y (by omega), appendInt_two M (by omega),
    appendInt_two D (by omega), appendInt_two H (by omega), appendInt_two N (by omega),
    appendInt_two S (by omega)]
  simp only [List.cons_append, List.nil_append, List.append_assoc]
  rw [parse_digits Y M D H N S (formatZone t.offset) t.offset (by omega) (by omega) (by omega)
    (by omega) hdmax (by omega) (by omega) (by omega) (parseZone_formatZone t.offset h60 hlo hhi)]
  have : daysFromCivil ↑Y ↑M ↑D * 86400 + ↑H * 3600 + ↑N * 60 + ↑S - t.offset = t.unix := by
    rw [hback]
    omega
  rw [this]

end time

/-! ## The audit log wire codec -/
namespace auditlogstore

/-- C10 (amended). For every audit record with event details present whose
timestamp lies in the years 0000 to 9999 of its zone and whose zone offset is a
whole number of minutes, less than 24 hours in magnitude: encoding succeeds,
decoding the wire record succeeds, encoding the decoded record gives the same
wire record (every field identical), the decoded record is the original one
with the nanoseconds dropped, and so its timestamp is the same instant at
second precision. -/
theorem wire_round_trip (al : audit.AuditLog) (details : String)
    (hdet : al.EventDetails = some details)
    (hy0 : 0 ≤ al.Timestamp.date.year) (hy1 : al.Timestamp.date.year ≤ 9999)
    (h60 : al.Timestamp.offset % 60 = 0)
    (hlo : -86400 < al.Timestamp.offset) (hhi : al.Timestamp.offset < 86400) :
    ∃ (p : ProtoAuditLog) (al2 : audit.AuditLog),
      rawAuditLogToProtoAuditLog al = .returns p ∧
      ProtoAuditLogToRawAuditLog p = .ok al2 ∧
      rawAuditLogToProtoAuditLog al2 = .returns p ∧
      al2 = { al with Timestamp := { al.Timestamp with nsec := 0 } } ∧
      al2.Timestamp.unix = al.Timestamp.unix := by
  have hp := time.parse_format al.Timestamp hy0 hy1 h60 hlo hhi
  refine ⟨wire al, { al with Timestamp := { al.Timestamp with nsec := 0 } }, ?_, ?_, ?_, rfl, rfl⟩
  · exact encode_of_details al (by simp [hdet])
  · unfold ProtoAuditLogToRawAuditLog
    simp only [wire, hp, hdet, Option.getD_some, audit.EventType.String, audit.SchemaVersion.Int]
  · simp only [rawAuditLogToProtoAuditLog, hdet, wire, Option.getD_some, time.formatRFC3339]

/-- Witness for `wire_round_trip`: the record stamped 2023-06-01T12:00:00Z. -/
theorem wire_round_trip_witness :
    (sampleLog.EventDetails = some "\x7b\x7d" ∧ 0 ≤ sampleLog.Timestamp.date.year ∧
      sampleLog.Timestamp.date.year ≤ 9999 ∧ sampleLog.Timestamp.offset % 60 = 0 ∧
      -86400 < sampleLog.Timestamp.offset ∧ sampleLog.Timestamp.offset < 86400) ∧
    (wire sampleLog).Timestamp = "2023-06-01T12:00:00Z" ∧
    ∃ (p : ProtoAuditLog) (al2 : audit.AuditLog),
      rawAuditLogToProtoAuditLog sampleLog = .returns p ∧
      ProtoAuditLogToRawAuditLog p = .ok al2 ∧
      rawAuditLogToProtoAuditLog al2 = .returns p ∧
      al2 = { sampleLog with Timestamp := { sampleLog.Timestamp with nsec := 0 } } ∧
      al2.Timestamp.unix = sampleLog.Timestamp.unix :=
  ⟨⟨rfl, by decide, by decide, by decide, by decide, by decide⟩, by decide,
    wire_round_trip sampleLog "\x7b\x7d" rfl (by decide) (by decide) (by decide) (by decide)
      (by decide)⟩

/-- C10 (as stated) fails.  The record stamped with the first second of year
10000 has event details; it encodes to the timestamp text
`10000-01-01T00:00:00Z`, and decoding that wire record is a parse error.  The
record in a zone 44 minutes 30 seconds west of UTC encodes with zone text
`-00:44`; it decodes, but to an instant 30 seconds before the original one.
The record in a zone 100 hours east of UTC encodes with zone text `+100:00`,
which does not decode. -/
theorem wire_round_trip_fails_outside_profile :
    (∃ p, farLog.EventDetails ≠ none ∧ rawAuditLogToProtoAuditLog farLog = .returns p ∧
      p.Timestamp = "10000-01-01T00:00:00Z" ∧
      ∃ e, ProtoAuditLogToRawAuditLog p = .error e) ∧
    (∃ p al2, skewLog.EventDetails ≠ none ∧ rawAuditLogToProtoAuditLog skewLog = .returns p ∧
      p.Timestamp = "1971-06-01T11:15:30-00:44" ∧
      ProtoAuditLogToRawAuditLog p = .ok al2 ∧
      al2.Timestamp.unix = skewLog.Timestamp.unix - 30) ∧
    (∃ p, hugeLog.EventDetails ≠ none ∧ rawAuditLogToProtoAuditLog hugeLog = .returns p ∧
      p.Timestamp = "2023-06-05T16:00:00+100:00" ∧
      ∃ e, ProtoAuditLogToRawAuditLog p = .error e) :=
  ⟨⟨wire farLog, by decide, rfl, by decide, _, rfl⟩,
    ⟨wire skewLog, { skewLog with Timestamp := ⟨44625570, 0, -2640⟩ },
      by decide, rfl, by decide, rfl, by decide⟩,
    ⟨wire hugeLog, by decide, rfl, by decide, _, rfl⟩⟩

end auditlogstore

/-! ## `PutConfig` and `DeleteConfig`: conditional writes -/
namespace configstore

theorem memKV_versioned : VersionedCAS memKV MemKV.version := by
  intro s p
  constructor
  · intro h
    simp [memKV, h]
  · intro h
    simp [memKV, h]

/-- C4 (amended). Over a backend whose conditional write is accepted exactly
when its current version for the key equals the supplied version (and leaves
the state alone when it rejects), for every record whose configuration
serialises and every expected version `v`: `PutConfig` returns, it returns no
error if and only if the current version for the id of the record equals `v`,
and otherwise it returns the conflict error and the backend state is
unchanged. -/
theorem PutConfig_succeeds_iff_version_matches {σ Cfg : Type} (cs : ConsulStore σ)
    (lib : Codec Cfg) (version : σ → String → Nat) (st : σ) (R : Fields Cfg) (v : Version)
    (yamlConfig : String)
    (hkv : VersionedCAS cs.consulKV version)
    (hyaml : lib.yamlMarshal R.Config = .ok yamlConfig) :
    ∃ run, PutConfig cs lib st R (some v) = .returns run ∧
      (run.result = none ↔ version st (ID.String R.ID) = v) ∧
      (version st (ID.String R.ID) ≠ v →
        run.result = some "CAS Failed! Consider retry" ∧ run.state = st) := by
  unfold PutConfig
  simp only [hyaml, Version.uint64]
  have hp := hkv st ⟨ID.String R.ID, (lib.jsonMarshal ⟨yamlConfig⟩).1, v⟩
  by_cases hv : version st (ID.String R.ID) = v
  · obtain ⟨hok, herr⟩ := hp.1 hv
    simp [hok, herr, hv]
  · obtain ⟨hok, hst⟩ := hp.2 hv
    simp [hok, hst, hv]

/-- Witness for `PutConfig_succeeds_iff_version_matches`: the in-memory
backend, key `a` at version 3, expected version 3. -/
theorem PutConfig_succeeds_iff_version_matches_witness :
    (VersionedCAS memKV MemKV.version ∧ textCodec.yamlMarshal (some "x: 2") = .ok "x: 2") ∧
    ∃ run, PutConfig ⟨memKV, fixedIndex []⟩ textCodec sampleKV ⟨some "x: 2", "a"⟩ (some 3)
        = .returns run ∧
      (run.result = none ↔ MemKV.version sampleKV (ID.String "a") = 3) ∧
      (MemKV.version sampleKV (ID.String "a") ≠ 3 →
        run.result = some "CAS Failed! Consider retry" ∧ run.state = sampleKV) :=
  ⟨⟨memKV_versioned, rfl⟩,
    PutConfig_succeeds_iff_version_matches ⟨memKV, fixedIndex []⟩ textCodec MemKV.version sampleKV
      ⟨some "x: 2", "a"⟩ 3 "x: 2" memKV_versioned rfl⟩

/-- C4 (as stated) fails: over the in-memory backend (whose conditional write
is accepted exactly when the versions agree), the current version of key `a`
equals the expected version 3, and yet `PutConfig` does not succeed, because
the configuration of the record does not serialise; it returns the
serialisation error without calling the backend. -/
theorem PutConfig_fails_on_unserialisable_config :
    VersionedCAS memKV MemKV.version ∧ MemKV.version sampleKV (ID.String "a") = 3 ∧
      PutConfig ⟨memKV, fixedIndex []⟩ textCodec sampleKV ⟨some "!bad", "a"⟩ (some 3)
        = .returns ⟨some "yaml: cannot marshal", sampleKV, []⟩ :=
  ⟨memKV_versioned, by decide, rfl⟩

/-- C5 (what the code does at the failing input). The backend call fails in
transport (`ok` false together with the error `connection refused`), and both
`PutConfig` and `DeleteConfig` return their conflict error, the one they
return for a rejected condition, and not an error carrying the failure. -/
theorem transport_failure_reported_as_conflict :
    (downKV.CAS () ⟨"a", "Jx: 1", 3⟩).err = some "connection refused" ∧
    PutConfig ⟨downKV, fixedIndex []⟩ textCodec () ⟨some "x: 1", "a"⟩ (some 3)
      = .returns ⟨some "CAS Failed! Consider retry", (), [Call.CAS ⟨"a", "Jx: 1", 3⟩]⟩ ∧
    (downKV.DeleteCAS () ⟨"a", "", 3⟩).err = some "connection refused" ∧
    DeleteConfig ⟨downKV, fixedIndex []⟩ () "a" (some 3)
      = .returns ⟨some "CAS Delete Failed! Consider retry.", (), [Call.DeleteCAS ⟨"a", "", 3⟩]⟩ :=
  ⟨rfl, rfl, rfl, rfl⟩

/-- C6 (amended). For every record whose configuration serialises, `PutConfig`
called with a present (non-nil) expected version `v` is well defined: it
returns, without a fault, after exactly one conditional write, keyed by the id
of the record, carrying the envelope of the serialised configuration and
`ModifyIndex` `v`, and it leaves the backend in the state that write produced.
With `v = 0` the expected version of the write is 0, which means that the key
must not exist. -/
theorem PutConfig_issues_one_conditional_write {σ Cfg : Type} (cs : ConsulStore σ)
    (lib : Codec Cfg) (st : σ) (R : Fields Cfg) (yamlConfig : String) (v : Version)
    (hyaml : lib.yamlMarshal R.Config = .ok yamlConfig) :
    ∃ run, PutConfig cs lib st R (some v) = .returns run ∧
      run.calls = [Call.CAS ⟨ID.String R.ID, (lib.jsonMarshal ⟨yamlConfig⟩).1, v⟩] ∧
      run.state
        = (cs.consulKV.CAS st ⟨ID.String R.ID, (lib.jsonMarshal ⟨yamlConfig⟩).1, v⟩).state := by
  unfold PutConfig
  simp only [hyaml, Version.uint64]
  split
  · exact ⟨_, rfl, rfl, rfl⟩
  · split <;> exact ⟨_, rfl, rfl, rfl⟩

/-- Witness for `PutConfig_issues_one_conditional_write`: creating key `c` on
the in-memory backend with expected version 0. -/
theorem PutConfig_issues_one_conditional_write_witness :
    textCodec.yamlMarshal (some "x: 1") = .ok "x: 1" ∧
    ∃ run, PutConfig ⟨memKV, fixedIndex []⟩ textCodec sampleKV ⟨some "x: 1", "c"⟩ (some 0)
        = .returns run ∧
      run.calls = [Call.CAS ⟨"c", "Jx: 1", 0⟩] ∧
      run.state = (memKV.CAS sampleKV ⟨"c", "Jx: 1", 0⟩).state :=
  ⟨rfl,
    PutConfig_issues_one_conditional_write ⟨memKV, fixedIndex []⟩ textCodec sampleKV
      ⟨some "x: 1", "c"⟩ "x: 1" 0 rfl⟩

/-- C6 (as stated) fails: called with a nil expected version on a record that
serialises, `PutConfig` panics; called with a pointer to version 0 on the same
record, whose key does not exist, it returns no error after one conditional
write with `ModifyIndex` 0, so the two calls do not behave alike.  On a record
that does not serialise, a call with expected version 0 returns the
serialisation error and issues no conditional write. -/
theorem PutConfig_nil_version_panics :
    PutConfig ⟨memKV, fixedIndex []⟩ textCodec sampleKV ⟨some "x: 1", "c"⟩ none = .panics ∧
    (∃ st1, PutConfig ⟨memKV, fixedIndex []⟩ textCodec sampleKV ⟨some "x: 1", "c"⟩ (some 0)
      = .returns ⟨none, st1, [Call.CAS ⟨"c", "Jx: 1", 0⟩]⟩) ∧
    PutConfig ⟨memKV, fixedIndex []⟩ textCodec sampleKV ⟨some "!bad", "c"⟩ (some 0)
      = .returns ⟨some "yaml: cannot marshal", sampleKV, []⟩ :=
  ⟨rfl, ⟨_, rfl⟩, rfl⟩

end configstore
/-! ## `FetchConfig`: classification of a read -/
namespace configstore

/-- C7. After a backend read that returns no error, with entries `config` and
metadata `consulMetadata`: if the number of entries is not one, `FetchConfig`
fails with an error; if there is exactly one entry and its envelope does not
parse, it returns `(Fields{}, nil, nil)`; if the envelope parses and the inner
document does not, it returns an error (and no version); otherwise it returns
the parsed configuration under the requested id, with the version
`consulMetadata.LastIndex` and no error.  In every case it made the one read. -/
theorem FetchConfig_classifies {σ Cfg : Type} (cs : ConsulStore σ) (lib : Codec Cfg) (st st1 : σ)
    (id : ID) (config : List KVPair) (consulMetadata : QueryMeta)
    (hget : cs.consulKV.Get st (ID.String id) = (.ok (config, consulMetadata), st1)) :
    (config.length ≠ 1 →
      (FetchConfig cs lib st id).result.err ≠ none ∧
      (FetchConfig cs lib st id).result.version = none ∧
      (FetchConfig cs lib st id).result.fields = Fields.zero) ∧
    (∀ c, config = [c] →
      (∀ e, lib.jsonUnmarshal c.Value = .error e →
        (FetchConfig cs lib st id).result = ⟨Fields.zero, none, none⟩) ∧
      (∀ env, lib.jsonUnmarshal c.Value = .ok env →
        (∀ e, lib.yamlUnmarshal env.Config = .error e →
          (FetchConfig cs lib st id).result.err ≠ none ∧
          (FetchConfig cs lib st id).result.version = none ∧
          (FetchConfig cs lib st id).result.fields = Fields.zero) ∧
        (∀ parsedConfig, lib.yamlUnmarshal env.Config = .ok parsedConfig →
          (FetchConfig cs lib st id).result
            = ⟨⟨some parsedConfig, id⟩, some consulMetadata.LastIndex, none⟩))) ∧
    (FetchConfig cs lib st id).calls = [Call.Get (ID.String id)] ∧
    (FetchConfig cs lib st id).state = st1 := by
  unfold FetchConfig
  rw [hget]
  refine ⟨?_, ?_, ?_, ?_⟩
  · intro hlen
    match config, hlen with
    | [], _ => simp
    | [c], h => simp at h
    | _ :: _ :: _, _ => simp
  · intro c hc
    subst hc
    refine ⟨?_, ?_⟩
    · intro e he
      simp [he]
    · intro env henv
      refine ⟨?_, ?_⟩
      · intro e he
        simp [henv, he]
      · intro parsedConfig hp
        simp [henv, hp]
  · repeat' split
    all_goals rfl
  · repeat' split
    all_goals first | rfl | simp_all

/-- Witness for `FetchConfig_classifies`: key `a` of the in-memory backend. -/
theorem FetchConfig_classifies_witness :
    (memKV.Get sampleKV (ID.String "a") = (.ok ([⟨"a", "Jx: 1", 3⟩], ⟨5⟩), sampleKV)) ∧
    (FetchConfig ⟨memKV, fixedIndex []⟩ textCodec sampleKV "a").result
      = ⟨⟨some "x: 1", "a"⟩, some 5, none⟩ :=
  ⟨rfl,
    ((FetchConfig_classifies ⟨memKV, fixedIndex []⟩ textCodec sampleKV sampleKV "a"
      [⟨"a", "Jx: 1", 3⟩] ⟨5⟩ rfl).2.1 ⟨"a", "Jx: 1", 3⟩ rfl).2 ⟨"x: 1"⟩ rfl |>.2 "x: 1" rfl⟩

end configstore
/-! ## `FindWhereLabeled`: lookup, then one fetch per match -/
namespace configstore

theorem FetchConfig_shape {σ Cfg : Type} (cs : ConsulStore σ) (lib : Codec Cfg) (st : σ) (id : ID) :
    ((FetchConfig cs lib st id).result.version ≠ none →
        (FetchConfig cs lib st id).result.fields.ID = id ∧
          (FetchConfig cs lib st id).result.err = none) ∧
      ((FetchConfig cs lib st id).result.version = none →
        (FetchConfig cs lib st id).result.fields = Fields.zero) := by
  unfold FetchConfig
  repeat' split
  all_goals simp

theorem fetchLoop_trace {σ Cfg : Type} (cs : ConsulStore σ) (lib : Codec Cfg)
    (labeled : List Labeled) (st : σ) (acc : List (Fields Cfg)) :
    ∃ results : List (FetchResult Cfg),
      results.length ≤ labeled.length ∧
      (fetchLoop cs lib labeled st acc).calls
        = List.zipWith (fun l x => Step.FetchConfig l.ID x) labeled results ∧
      (∀ x ∈ results.dropLast, x.err = none) ∧
      (∀ (i : Nat) (l : Labeled) (x : FetchResult Cfg), labeled[i]? = some l → results[i]? = some x →
        ∃ s, x = (FetchConfig cs lib s l.ID).result) ∧
      ((∃ x, results.getLast? = some x ∧ x.err ≠ none ∧
          (fetchLoop cs lib labeled st acc).result.1 = none ∧
          (fetchLoop cs lib labeled st acc).result.2 ≠ none) ∨
        (results.length = labeled.length ∧ (∀ x ∈ results, x.err = none) ∧
          (fetchLoop cs lib labeled st acc).result
            = (some (acc ++ results.map (fun x => x.fields)), none))) := by
  induction labeled generalizing st acc with
  | nil =>
    exact ⟨[], by simp, by simp [fetchLoop], by simp, by simp, Or.inr (by simp [fetchLoop])⟩
  | cons l rest ih =>
    cases herr : (FetchConfig cs lib st l.ID).result.err with
    | some e =>
      refine ⟨[(FetchConfig cs lib st l.ID).result], by simp, by simp [fetchLoop, herr],
        by simp, ?_, Or.inl ⟨_, rfl, by simp [herr], by simp [fetchLoop, herr],
          by simp [fetchLoop, herr]⟩⟩
      intro i l' x hl hx
      cases i with
      | zero =>
        simp at hl hx
        subst hl hx
        exact ⟨st, rfl⟩
      | succ i => simp at hx
    | none =>
      obtain ⟨results, hlen, hcalls, hdrop, hidx, hres⟩ :=
        ih (FetchConfig cs lib st l.ID).state (acc ++ [(FetchConfig cs lib st l.ID).result.fields])
      refine ⟨(FetchConfig cs lib st l.ID).result :: results, by simpa using hlen,
        by simp [fetchLoop, herr, hcalls], ?_, ?_, ?_⟩
      · intro x hx
        cases results with
        | nil => simp at hx
        | cons y ys =>
          rw [List.dropLast_cons₂] at hx
          rcases List.mem_cons.1 hx with h | h
          · rw [h]; exact herr
          · exact hdrop x h
      · intro i l' x hl hx
        cases i with
        | zero =>
          simp at hl hx
          subst hl hx
          exact ⟨st, rfl⟩
        | succ i =>
          simp at hl hx
          exact hidx i l' x hl hx
      · rcases hres with ⟨x, hlast, hx, h1, h2⟩ | ⟨hl, hall, hr⟩
        · left
          refine ⟨x, ?_, hx, by simpa [fetchLoop, herr] using h1, by simpa [fetchLoop, herr] using h2⟩
          cases results with
          | nil => simp at hlast
          | cons y ys => simpa [List.getLast?_cons_cons] using hlast
        · right
          refine ⟨by simp [hl], ?_, ?_⟩
          · intro x hx
            rcases List.mem_cons.1 hx with h | h
            · rw [h]; exact herr
            · exact hall x h
          · simp [fetchLoop, herr, hr]

/-- C8. `FindWhereLabeled` performs the index lookup first and only once.  If
the lookup fails it fetches nothing and returns an error and no list.
Otherwise it runs `FetchConfig` on the matching ids in index order, one call
per id, each entry of the trace being the result of `FetchConfig` on that id;
every fetch before the last one performed succeeded, so nothing is fetched
after a failing fetch; a failing fetch gives an error and no list; when no
fetch fails every matching id has been fetched and the list of the fetched
records is returned.  A list is never returned together with an error. -/
theorem FindWhereLabeled_aborts_on_first_failure {σ Cfg : Type} (cs : ConsulStore σ)
    (lib : Codec Cfg) (st : σ) (label : Selector) :
    (∀ e st1, cs.applicator.GetMatches st label = (.error e, st1) →
      (FindWhereLabeled cs lib st label).calls = [Step.GetMatches label (some e)] ∧
      (FindWhereLabeled cs lib st label).result.1 = none ∧
      (FindWhereLabeled cs lib st label).result.2 ≠ none) ∧
    (∀ labeled st1, cs.applicator.GetMatches st label = (.ok labeled, st1) →
      ∃ results : List (FetchResult Cfg),
        results.length ≤ labeled.length ∧
        (FindWhereLabeled cs lib st label).calls
          = Step.GetMatches label none
            :: List.zipWith (fun l x => Step.FetchConfig l.ID x) labeled results ∧
        (∀ (i : Nat) (l : Labeled) (x : FetchResult Cfg), labeled[i]? = some l →
          results[i]? = some x → ∃ s, x = (FetchConfig cs lib s l.ID).result) ∧
        (∀ x ∈ results.dropLast, x.err = none) ∧
        ((∃ x, results.getLast? = some x ∧ x.err ≠ none ∧
            (FindWhereLabeled cs lib st label).result.1 = none ∧
            (FindWhereLabeled cs lib st label).result.2 ≠ none) ∨
          (results.length = labeled.length ∧ (∀ x ∈ results, x.err = none) ∧
            (FindWhereLabeled cs lib st label).result
              = (some (results.map (fun x => x.fields)), none)))) ∧
    ((FindWhereLabeled cs lib st label).result.1 ≠ none →
      (FindWhereLabeled cs lib st label).result.2 = none) := by
  refine ⟨?_, ?_, ?_⟩
  · intro e st1 h
    simp [FindWhereLabeled, h]
  · intro labeled st1 h
    obtain ⟨results, hlen, hcalls, hdrop, hidx, hres⟩ := fetchLoop_trace cs lib labeled st1 []
    refine ⟨results, hlen, by simp [FindWhereLabeled, h, hcalls], hidx, hdrop, ?_⟩
    rcases hres with ⟨x, hlast, hx, h1, h2⟩ | ⟨hl, hall, hr⟩
    · exact Or.inl ⟨x, hlast, hx, by simpa [FindWhereLabeled, h] using h1,
        by simpa [FindWhereLabeled, h] using h2⟩
    · exact Or.inr ⟨hl, hall, by simpa [FindWhereLabeled, h] using hr⟩
  · rcases hg : cs.applicator.GetMatches st label with ⟨r, st1⟩
    cases r with
    | error e => simp [FindWhereLabeled, hg]
    | ok labeled =>
      obtain ⟨results, _, _, _, _, hres⟩ := fetchLoop_trace cs lib labeled st1 []
      rcases hres with ⟨x, _, _, h1, _⟩ | ⟨_, _, hr⟩
      · intro hne
        exact absurd (by simpa [FindWhereLabeled, hg] using h1) hne
      · intro _
        simp [FindWhereLabeled, hg, hr]

/-- C9 (amended). When the index lookup reports `labeled` and
`FindWhereLabeled` succeeds with the list `fs`, the list has one record per
matching id, in index order: the record at position `i` is the result of
`FetchConfig` on the `i`-th matching id; its id equals the `i`-th matching id
whenever that fetch produced a version, and it is the empty `Fields{}` (with
the empty id) when that fetch produced no version, which is the case of a
malformed envelope. -/
theorem FindWhereLabeled_ids_follow_index {σ Cfg : Type} (cs : ConsulStore σ) (lib : Codec Cfg)
    (st st1 : σ) (label : Selector) (labeled : List Labeled) (fs : List (Fields Cfg))
    (hidx : cs.applicator.GetMatches st label = (.ok labeled, st1))
    (hok : (FindWhereLabeled cs lib st label).result = (some fs, none)) :
    fs.length = labeled.length ∧
    ∀ (i : Nat) (l : Labeled) (f : Fields Cfg), labeled[i]? = some l → fs[i]? = some f →
      ∃ s, f = (FetchConfig cs lib s l.ID).result.fields ∧
        (FetchConfig cs lib s l.ID).result.err = none ∧
        ((FetchConfig cs lib s l.ID).result.version ≠ none → f.ID = l.ID) ∧
        ((FetchConfig cs lib s l.ID).result.version = none → f = Fields.zero) := by
  obtain ⟨results, hlen, hcalls, hdrop, hix, hres⟩ := fetchLoop_trace cs lib labeled st1 []
  have hr : (FindWhereLabeled cs lib st label).result = (fetchLoop cs lib labeled st1 []).result := by
    simp [FindWhereLabeled, hidx]
  rw [hr] at hok
  rcases hres with ⟨x, _, _, h1, _⟩ | ⟨hl, hall, hres⟩
  · rw [hok] at h1
    simp at h1
  · rw [hok] at hres
    have hfs : fs = results.map (fun x => x.fields) := by simpa using hres
    subst hfs
    refine ⟨by simp [hl], ?_⟩
    intro i l f hli hfi
    rw [List.getElem?_map] at hfi
    cases hxi : results[i]? with
    | none => simp [hxi] at hfi
    | some x =>
      simp [hxi] at hfi
      obtain ⟨s, hs⟩ := hix i l x hli hxi
      have hshape := FetchConfig_shape cs lib s l.ID
      have hxe : x.err = none := hall x (List.getElem?_mem hxi)
      refine ⟨s, ?_, ?_, ?_, ?_⟩
      · rw [← hfi, hs]
      · rw [← hs]; exact hxe
      · intro hv
        rw [← hfi, hs]
        exact (hshape.1 hv).1
      · intro hv
        rw [← hfi, hs]
        exact hshape.2 hv

/-- Witness for `FindWhereLabeled_ids_follow_index`: the index reports the ids
`a` (well-formed envelope) and `b` (bytes that are no envelope). -/
theorem FindWhereLabeled_ids_follow_index_witness :
    ((fixedIndex [⟨"a", []⟩, ⟨"b", []⟩] : Applicator MemKV).GetMatches sampleKV ⟨"app=x"⟩
        = (.ok [⟨"a", []⟩, ⟨"b", []⟩], sampleKV) ∧
      (FindWhereLabeled ⟨memKV, fixedIndex [⟨"a", []⟩, ⟨"b", []⟩]⟩ textCodec sampleKV
        ⟨"app=x"⟩).result = (some [⟨some "x: 1", "a"⟩, Fields.zero], none)) ∧
    ([⟨some "x: 1", "a"⟩, Fields.zero] : List (Fields String)).length
      = ([⟨"a", []⟩, ⟨"b", []⟩] : List Labeled).length :=
  ⟨⟨rfl, rfl⟩,
    (FindWhereLabeled_ids_follow_index ⟨memKV, fixedIndex [⟨"a", []⟩, ⟨"b", []⟩]⟩ textCodec
      sampleKV sampleKV ⟨"app=x"⟩ [⟨"a", []⟩, ⟨"b", []⟩] [⟨some "x: 1", "a"⟩, Fields.zero]
      rfl rfl).1⟩

/-- C9 (as stated) fails: the index reports the one id `b`, whose stored bytes
are no envelope; `FindWhereLabeled` succeeds and returns one record, the empty
`Fields{}`, whose id is the empty string and not `b`. -/
theorem FindWhereLabeled_returns_empty_record_for_bad_envelope :
    (fixedIndex [⟨"b", []⟩] : Applicator MemKV).GetMatches sampleKV ⟨"app=x"⟩
        = (.ok [⟨"b", []⟩], sampleKV) ∧
      (FindWhereLabeled ⟨memKV, fixedIndex [⟨"b", []⟩]⟩ textCodec sampleKV ⟨"app=x"⟩).result
        = (some [(⟨none, ""⟩ : Fields String)], none) ∧
      (⟨none, ""⟩ : Fields String).ID ≠ "b" :=
  ⟨rfl, rfl, by decide⟩

end configstore
end P2
